import Mathlib

/-!
# Verification of the multi-source consensus engine

Shallow embedding of the consensus logic of `src/weather_multi_source.py`
(temperature bucketing, per-model bias correction, bucket voting, decision
gate) and of `src/btc_predict.py` (`run_ensemble`, the three-classifier
majority vote).  Temperatures, probabilities and prices are modelled as `ℚ`;
Python `//` on floats is floor division, modelled as `Int.floor`.  Strings are
rendered exactly as the Python f-strings render them.
-/

namespace PolymarketBot

/- The Batteries definitions of rational arithmetic are `@[irreducible]`,
which blocks `decide` from evaluating the embedding on concrete inputs; the
definitions are executable, so let evaluation unfold them. -/
attribute [local semireducible] Rat.add Rat.mul Rat.inv Rat.sub Rat.ofScientific

/-- `c_to_f` from `src/weather_multi_source.py` (line 38): `c * 9.0 / 5.0 + 32.0`. -/
def c_to_f (c : ℚ) : ℚ := c * 9 / 5 + 32

/-- `get_bucket` from `src/weather_multi_source.py` (lines 42–56).
`base = int(temp // step) * step` is `(temp / step).floor * step` (Python `//`
on floats floors; `int` of an integral float is exact; `Rat.floor` is the
floor function on `ℚ`, see `rat_floor_eq_floor` below).  In the Celsius branch
the source then runs `if temp < 0 and temp != base: base -= 1`. -/
def get_bucket (temp : ℚ) (unit : String) : String :=
  if unit == "F" then
    let step : Int := 2
    let base : Int := (temp / (step : ℚ)).floor * step
    s!"{base}-{base + step}°F"
  else
    let step : Int := 1
    let base0 : Int := (temp / (step : ℚ)).floor * step
    let base : Int := if temp < 0 ∧ temp ≠ (base0 : ℚ) then base0 - 1 else base0
    s!"{base}-{base + step}°C"

/-- `Rat.floor` (the executable floor used in `get_bucket`) is the
mathematical floor `⌊·⌋`. -/
lemma rat_floor_eq_floor (q : ℚ) : q.floor = ⌊q⌋ := by
  rw [Rat.floor_def', Rat.floor_def]

/-- The vote-counting loop shared by `analyze_city`
(`src/weather_multi_source.py` lines 106–109: a dict updated with
`bucket_counts[b] = bucket_counts.get(b, 0) + 1`) and `run_ensemble`
(`src/btc_predict.py` line 105: `Counter(votes)`).  A Python dict (and a
`Counter` built from a list) keeps keys in insertion order: updating an
existing key keeps its position, a new key is appended. -/
def countVotes (votes : List String) : List (String × Nat) :=
  votes.foldl
    (fun acc v =>
      if acc.any (fun p => p.1 == v) then
        acc.map (fun p => if p.1 == v then (p.1, p.2 + 1) else p)
      else acc ++ [(v, 1)])
    []

/-- `max(bucket_counts, key=bucket_counts.get)` paired with the subsequent
`bucket_counts[best_bucket]` lookup (`src/weather_multi_source.py` lines
111–112), and equally `Counter(votes).most_common(1)[0]`
(`src/btc_predict.py` line 106).  Both pick the first key attaining the
maximal count in insertion order (`max` keeps the first maximum; CPython's
`most_common` uses a stable sort), together with that key's count. -/
def mostCommon (counts : List (String × Nat)) : String × Nat :=
  counts.foldl (fun best p => if best.2 < p.2 then p else best) ("", 0)

/-- One entry of the `CITIES` table of `src/weather_multi_source.py`
(lines 19–33): the fields the analysis itself consumes.  `lat`, `lon` and
`icao` only parametrize the network fetch and are omitted. -/
structure CityCfg where
  unit : String
  bias : ℚ
  deriving DecidableEq, Repr

/-- The result dict built by `analyze_city` (`src/weather_multi_source.py`
lines 122–133).  The Python dict stores `consensus` and `total` as the
rendered string `f"{consensus}/{total}"`; we keep the numeric pair (the same
data).  The `city`/`date`/`unit` echo fields and the per-model display
temperature `round(temp, 1)` (display only, the bucket is computed from the
unrounded value) are omitted; `models` maps each model to its bucket. -/
structure CityResult where
  models : List (String × String)
  bucket : String
  consensus : Nat
  total : Nat
  consensus_prob : ℚ
  market_price : ℚ
  edge : ℚ
  tradeable : Bool
  deriving DecidableEq, Repr

/-- `analyze_city` from `src/weather_multi_source.py` (lines 89–133), as a
function of the per-model temperatures the fetch produced (`model_temps`,
insertion-ordered; a failed fetch yields `[]`).  `none` models the
`{"city": ..., "error": "no data"}` dict returned when `results` is empty.
`best_bucket = max(...)` and `consensus = bucket_counts[best_bucket]` are the
two components of `mostCommon`.  `market_price = 0.25` is the hard-coded
placeholder; `tradeable = consensus >= 3 and total >= 3`. -/
def analyze_city (cfg : CityCfg) (model_temps : List (String × ℚ)) :
    Option CityResult :=
  let results := model_temps.map (fun p =>
    (p.1, get_bucket ((if cfg.unit == "F" then c_to_f p.2 else p.2) + cfg.bias) cfg.unit))
  if results.isEmpty then
    none
  else
    let bucket_counts := countVotes (results.map (fun r => r.2))
    let best := mostCommon bucket_counts
    let total := results.length
    let consensus_prob : ℚ := (best.2 : ℚ) / (total : ℚ)
    let market_price : ℚ := 1/4
    let edge : ℚ := consensus_prob - market_price
    let tradeable : Bool := decide (3 ≤ best.2) && decide (3 ≤ total)
    some {
      models := results
      bucket := best.1
      consensus := best.2
      total := total
      consensus_prob := consensus_prob
      market_price := market_price
      edge := edge
      tradeable := tradeable
    }

/-- The bucket sequence `analyze_city` votes over, in source-iteration order:
for each model, the bias-corrected (and, for Fahrenheit cities, converted)
temperature bucketed by `get_bucket`. -/
def model_buckets (cfg : CityCfg) (model_temps : List (String × ℚ)) : List String :=
  model_temps.map (fun p =>
    get_bucket ((if cfg.unit == "F" then c_to_f p.2 else p.2) + cfg.bias) cfg.unit)

/-- The majority-vote block of `run_ensemble` from `src/btc_predict.py`
(lines 102–116), as a function of each classifier's `(signal, confidence)`
pair in the fixed order `rf, xgb, lgb`: if the most common signal has at
least two votes it wins with `np.mean` of the agreeing confidences, otherwise
the result is `("HOLD", 0.0)`.  The JSON assembly at lines 118–123 (which
additionally rounds the confidence to four decimals for display) is outside
the vote logic and omitted. -/
def run_ensemble (rf xgb lgb : String × ℚ) : String × ℚ :=
  let votes := [rf.1, xgb.1, lgb.1]
  let mc := mostCommon (countVotes votes)
  if 2 ≤ mc.2 then
    let agreeing := ([rf, xgb, lgb].filter (fun m => m.1 == mc.1)).map (fun m => m.2)
    (mc.1, agreeing.sum / (agreeing.length : ℚ))
  else
    ("HOLD", 0)

/-- The Decision Gate as §4.3 of the spec states it — a second definition,
following the spec's words, to compare with the `tradeable` expression inside
`analyze_city`:
`actionable = (agreement_count >= min_agreement_count) and
(total >= min_total_sources) and
(reference_price is None or abs(confidence - reference_price) >= min_edge)`. -/
def decision_gate_spec (agreement_count total : Nat) (confidence : ℚ)
    (reference_price : Option ℚ) (min_agreement_count min_total_sources : Nat)
    (min_edge : ℚ) : Bool :=
  decide (min_agreement_count ≤ agreement_count) &&
    decide (min_total_sources ≤ total) &&
    (match reference_price with
     | none => true
     | some rp => decide (min_edge ≤ |confidence - rp|))

/-! ## Concrete evaluations used as witnesses

A Celsius city configured like London (`unit "C"`, `bias 0.5`) and a
Fahrenheit city configured like NYC (`unit "F"`, `bias 1.0`), with concrete
model temperatures and the results `analyze_city` computes on them. -/

def cfgC : CityCfg := { unit := "C", bias := 1/2 }

def cfgF : CityCfg := { unit := "F", bias := 1 }

/-- Four models whose corrected temps are 5.2, 5.5, 5.8, 6.1 °C: buckets
`[A, A, A, B]` with `A = "5-6°C"`. -/
def tempsAAAB : List (String × ℚ) :=
  [("best_match", 47/10), ("gfs_seamless", 5), ("icon_seamless", 53/10),
   ("ecmwf_ifs025", 56/10)]

def resultAAAB : CityResult :=
  { models := [("best_match", "5-6°C"), ("gfs_seamless", "5-6°C"),
               ("icon_seamless", "5-6°C"), ("ecmwf_ifs025", "6-7°C")]
    bucket := "5-6°C"
    consensus := 3
    total := 4
    consensus_prob := 3/4
    market_price := 1/4
    edge := 1/2
    tradeable := true }

/-- Three models, buckets `[A, A, B]`: plurality 2 of 3, below the gate. -/
def tempsAAB : List (String × ℚ) :=
  [("best_match", 47/10), ("gfs_seamless", 5), ("ecmwf_ifs025", 56/10)]

def resultAAB : CityResult :=
  { models := [("best_match", "5-6°C"), ("gfs_seamless", "5-6°C"),
               ("ecmwf_ifs025", "6-7°C")]
    bucket := "5-6°C"
    consensus := 2
    total := 3
    consensus_prob := 2/3
    market_price := 1/4
    edge := 5/12
    tradeable := false }

/-- Four models, buckets `[A, B, B, A]`: a 2–2 tie. -/
def tempsTie : List (String × ℚ) :=
  [("best_match", 47/10), ("gfs_seamless", 56/10), ("icon_seamless", 57/10),
   ("ecmwf_ifs025", 5)]

def resultTie : CityResult :=
  { models := [("best_match", "5-6°C"), ("gfs_seamless", "6-7°C"),
               ("icon_seamless", "6-7°C"), ("ecmwf_ifs025", "5-6°C")]
    bucket := "5-6°C"
    consensus := 2
    total := 4
    consensus_prob := 1/2
    market_price := 1/4
    edge := 1/4
    tradeable := false }

/-- One Fahrenheit model: raw 10 °C, converted 50 °F, biased 51 °F. -/
def tempsF1 : List (String × ℚ) := [("best_match", 10)]

def resultF1 : CityResult :=
  { models := [("best_match", "50-52°F")]
    bucket := "50-52°F"
    consensus := 1
    total := 1
    consensus_prob := 1
    market_price := 1/4
    edge := 3/4
    tradeable := false }

/-- Four Fahrenheit models with a 3–1 bucket split. -/
def tempsF4 : List (String × ℚ) :=
  [("best_match", 10), ("gfs_seamless", 10), ("icon_seamless", 103/10),
   ("ecmwf_ifs025", 12)]

def resultF4 : CityResult :=
  { models := [("best_match", "50-52°F"), ("gfs_seamless", "50-52°F"),
               ("icon_seamless", "50-52°F"), ("ecmwf_ifs025", "54-56°F")]
    bucket := "50-52°F"
    consensus := 3
    total := 4
    consensus_prob := 3/4
    market_price := 1/4
    edge := 1/2
    tradeable := true }

lemma evalAAAB : analyze_city cfgC tempsAAAB = some resultAAAB := by decide

lemma evalAAB : analyze_city cfgC tempsAAB = some resultAAB := by decide

lemma evalTie : analyze_city cfgC tempsTie = some resultTie := by decide

lemma evalF1 : analyze_city cfgF tempsF1 = some resultF1 := by decide

lemma evalF4 : analyze_city cfgF tempsF4 = some resultF4 := by decide

/-! ## Support lemmas about the voting loop -/

/-- Index of the first occurrence of `b` in a list (length of the list if
`b` does not occur). -/
def firstIdx (b : String) : List String → Nat
  | [] => 0
  | v :: xs => if v = b then 0 else firstIdx b xs + 1

lemma firstIdx_append_of_mem {b : String} (zs : List String) :
    ∀ {ys : List String}, b ∈ ys → firstIdx b (ys ++ zs) = firstIdx b ys := by
  intro ys hb
  induction ys with
  | nil => exact absurd hb (List.not_mem_nil b)
  | cons v ys ih =>
    by_cases hv : v = b
    · simp [firstIdx, hv]
    · rcases List.mem_cons.1 hb with rfl | hb'
      · exact absurd rfl hv
      · simp [firstIdx, hv, ih hb']

lemma firstIdx_append_of_not_mem {b : String} (zs : List String) :
    ∀ {ys : List String}, b ∉ ys → firstIdx b (ys ++ zs) = ys.length + firstIdx b zs := by
  intro ys hb
  induction ys with
  | nil => simp [firstIdx]
  | cons v ys ih =>
    have hv : v ≠ b := fun hvb => hb (hvb ▸ List.mem_cons_self v ys)
    have hb' : b ∉ ys := fun hmem => hb (List.mem_cons_of_mem v hmem)
    simp [firstIdx, hv, ih hb']
    omega

lemma firstIdx_lt_length {b : String} :
    ∀ {ys : List String}, b ∈ ys → firstIdx b ys < ys.length := by
  intro ys hb
  induction ys with
  | nil => exact absurd hb (List.not_mem_nil b)
  | cons v ys ih =>
    by_cases hv : v = b
    · simp [firstIdx, hv]
    · rcases List.mem_cons.1 hb with rfl | hb'
      · exact absurd rfl hv
      · simpa [firstIdx, hv] using ih hb'

/-- The distinct values of a list in order of first occurrence — the key
order of the Python dict/`Counter` built by the counting loop. -/
def firstOccs (xs : List String) : List String :=
  xs.foldl (fun acc v => if v ∈ acc then acc else acc ++ [v]) []

lemma firstOccs_concat (xs : List String) (v : String) :
    firstOccs (xs ++ [v]) =
      if v ∈ firstOccs xs then firstOccs xs else firstOccs xs ++ [v] := by
  simp [firstOccs, List.foldl_append]

lemma mem_firstOccs (xs : List String) : ∀ b, b ∈ firstOccs xs ↔ b ∈ xs := by
  induction xs using List.reverseRecOn with
  | nil => intro b; simp [firstOccs]
  | append_singleton ys v ih =>
    intro b
    rw [firstOccs_concat]
    by_cases hv : v ∈ firstOccs ys
    · have hv' : v ∈ ys := (ih v).1 hv
      rw [if_pos hv]
      simp only [List.mem_append, List.mem_singleton, ih b]
      constructor
      · exact fun h => Or.inl h
      · rintro (h | rfl)
        · exact h
        · exact hv'
    · rw [if_neg hv]
      simp [List.mem_append, ih b]

lemma countVotes_concat (xs : List String) (v : String) :
    countVotes (xs ++ [v]) =
      if (countVotes xs).any (fun p => p.1 == v) then
        (countVotes xs).map (fun p => if p.1 == v then (p.1, p.2 + 1) else p)
      else countVotes xs ++ [(v, 1)] := by
  unfold countVotes
  rw [List.foldl_append]
  rfl

/-- Closed form of the counting loop: one entry per distinct vote, keyed in
first-occurrence order, whose count is the number of occurrences. -/
lemma countVotes_eq (xs : List String) :
    countVotes xs = (firstOccs xs).map (fun b => (b, xs.count b)) := by
  induction xs using List.reverseRecOn with
  | nil => simp [countVotes, firstOccs]
  | append_singleton ys v ih =>
    rw [countVotes_concat, ih, firstOccs_concat]
    by_cases hv : v ∈ firstOccs ys
    · have hany : (((firstOccs ys).map (fun b => (b, ys.count b))).any
          (fun p => p.1 == v)) = true := by
        rw [List.any_eq_true]
        exact ⟨(v, ys.count v), List.mem_map_of_mem _ hv, by simp⟩
      rw [if_pos hany, if_pos hv, List.map_map]
      apply List.map_congr_left
      intro b hb
      by_cases hbv : b = v
      · subst hbv
        simp [Function.comp, List.count_append]
      · simp [Function.comp, hbv, List.count_append]
    · have hany : (((firstOccs ys).map (fun b => (b, ys.count b))).any
          (fun p => p.1 == v)) = false := by
        rw [Bool.eq_false_iff]
        intro hcontra
        rw [List.any_eq_true] at hcontra
        obtain ⟨q, hq, hbeq⟩ := hcontra
        obtain ⟨b, hb, rfl⟩ := List.mem_map.1 hq
        exact hv ((by simpa using hbeq : b = v) ▸ hb)
      have hvys : v ∉ ys := fun hmem => hv ((mem_firstOccs ys v).2 hmem)
      rw [if_neg (by simp [hany]), if_neg hv, List.map_append]
      congr 1
      · apply List.map_congr_left
        intro b hb
        have hbys : b ∈ ys := (mem_firstOccs ys b).1 hb
        have hbv : b ≠ v := fun hbv => hvys (hbv ▸ hbys)
        simp [List.count_append, hbv]
      · simp [List.count_append, List.count_eq_zero_of_not_mem hvys]

lemma countVotes_keys (xs : List String) :
    (countVotes xs).map Prod.fst = firstOccs xs := by
  rw [countVotes_eq, List.map_map]
  exact List.map_id _

lemma countVotes_count {xs : List String} {p : String × Nat}
    (hp : p ∈ countVotes xs) : p.2 = xs.count p.1 := by
  rw [countVotes_eq] at hp
  obtain ⟨b, _, rfl⟩ := List.mem_map.1 hp
  rfl

lemma mem_countVotes {xs : List String} {b : String} (hb : b ∈ xs) :
    (b, xs.count b) ∈ countVotes xs := by
  rw [countVotes_eq]
  exact List.mem_map_of_mem _ ((mem_firstOccs xs b).2 hb)

/-- The fold `max`/`most_common` performs keeps the FIRST element attaining
the maximal value: either nothing beat the initial accumulator, or the list
splits around the result, everything before it strictly below, everything
after it at most it. -/
lemma foldl_pick_spec (l : List (String × Nat)) : ∀ init : String × Nat,
    (l.foldl (fun best p => if best.2 < p.2 then p else best) init = init ∧
      ∀ p ∈ l, p.2 ≤ init.2) ∨
    (∃ l1 r l2, l = l1 ++ r :: l2 ∧
      l.foldl (fun best p => if best.2 < p.2 then p else best) init = r ∧
      init.2 < r.2 ∧ (∀ p ∈ l1, p.2 < r.2) ∧ (∀ p ∈ l2, p.2 ≤ r.2)) := by
  induction l with
  | nil => intro init; exact Or.inl ⟨rfl, by simp⟩
  | cons p l ih =>
    intro init
    simp only [List.foldl_cons]
    by_cases hp : init.2 < p.2
    · rw [if_pos hp]
      rcases ih p with ⟨heq, hle⟩ | ⟨l1, r, l2, hsplit, heq, hlt, h1, h2⟩
      · exact Or.inr ⟨[], p, l, by simp, heq, hp, by simp, hle⟩
      · refine Or.inr ⟨p :: l1, r, l2, by simp [hsplit], heq, lt_trans hp hlt, ?_, h2⟩
        intro q hq
        rcases List.mem_cons.1 hq with rfl | hq'
        · exact hlt
        · exact h1 q hq'
    · rw [if_neg hp]
      push_neg at hp
      rcases ih init with ⟨heq, hle⟩ | ⟨l1, r, l2, hsplit, heq, hlt, h1, h2⟩
      · refine Or.inl ⟨heq, ?_⟩
        intro q hq
        rcases List.mem_cons.1 hq with rfl | hq'
        · exact hp
        · exact hle q hq'
      · refine Or.inr ⟨p :: l1, r, l2, by simp [hsplit], heq, hlt, ?_, h2⟩
        intro q hq
        rcases List.mem_cons.1 hq with rfl | hq'
        · exact lt_of_le_of_lt hp hlt
        · exact h1 q hq'

/-- On a nonempty vote list, `mostCommon (countVotes xs)` is an entry of the
tally, with positive count, everything before it strictly smaller and
everything after it no larger. -/
lemma mostCommon_split (xs : List String) (hxs : xs ≠ []) :
    ∃ l1 l2, countVotes xs = l1 ++ mostCommon (countVotes xs) :: l2 ∧
      0 < (mostCommon (countVotes xs)).2 ∧
      (∀ p ∈ l1, p.2 < (mostCommon (countVotes xs)).2) ∧
      (∀ p ∈ l2, p.2 ≤ (mostCommon (countVotes xs)).2) := by
  rcases foldl_pick_spec (countVotes xs) ("", 0) with ⟨heq, hle⟩ |
    ⟨l1, r, l2, hsplit, heq, hlt, h1, h2⟩
  · exfalso
    rcases xs with _ | ⟨x, t⟩
    · exact hxs rfl
    · have hmem : (x, (x :: t).count x) ∈ countVotes (x :: t) :=
        mem_countVotes (List.mem_cons_self x t)
      have hle' := hle _ hmem
      have hpos : 0 < (x :: t).count x :=
        List.count_pos_iff.2 (List.mem_cons_self x t)
      omega
  · have hmc : mostCommon (countVotes xs) = r := heq
    rw [hmc]
    exact ⟨l1, l2, hsplit, hlt, h1, h2⟩

/-- In `firstOccs xs`, keys appear in order of first occurrence in `xs`. -/
lemma firstOccs_order (xs : List String) :
    ∀ k1 a k2, firstOccs xs = k1 ++ a :: k2 →
      ∀ b ∈ k2, firstIdx a xs < firstIdx b xs := by
  induction xs using List.reverseRecOn with
  | nil =>
    intro k1 a k2 h b hb
    exact absurd h.symm (by simp [firstOccs])
  | append_singleton ys v ih =>
    intro k1 a k2 hsplit b hb
    rw [firstOccs_concat] at hsplit
    by_cases hv : v ∈ firstOccs ys
    · rw [if_pos hv] at hsplit
      have ha : a ∈ ys := (mem_firstOccs ys a).1 (by rw [hsplit]; simp)
      have hbys : b ∈ ys := (mem_firstOccs ys b).1 (by rw [hsplit]; simp [hb])
      rw [firstIdx_append_of_mem _ ha, firstIdx_append_of_mem _ hbys]
      exact ih k1 a k2 hsplit b hb
    · rw [if_neg hv] at hsplit
      have hvys : v ∉ ys := fun hmem => hv ((mem_firstOccs ys v).2 hmem)
      rcases List.eq_nil_or_concat k2 with rfl | ⟨k2', u, rfl⟩
      · exact absurd hb (List.not_mem_nil b)
      · rw [List.concat_eq_append] at hsplit hb
        have hsplit' : (k1 ++ a :: k2') ++ [u] = firstOccs ys ++ [v] := by
          rw [hsplit]; simp
        obtain ⟨heq', hu⟩ := List.append_inj' hsplit' rfl
        have huv : u = v := by simpa using hu
        have ha : a ∈ ys := (mem_firstOccs ys a).1 (by rw [← heq']; simp)
        rcases List.mem_append.1 hb with hb' | hb'
        · have hbys : b ∈ ys := (mem_firstOccs ys b).1 (by rw [← heq']; simp [hb'])
          rw [firstIdx_append_of_mem _ ha, firstIdx_append_of_mem _ hbys]
          exact ih k1 a k2' heq'.symm b hb'
        · have hbv : b = v := by simpa [huv] using hb'
          subst hbv
          rw [firstIdx_append_of_mem _ ha, firstIdx_append_of_not_mem _ hvys]
          exact lt_of_lt_of_le (firstIdx_lt_length ha) (Nat.le_add_right _ _)

/-- Unpacking of a successful `analyze_city` evaluation: every field of the
result in terms of the inputs. -/
lemma analyze_city_fields {cfg : CityCfg} {model_temps : List (String × ℚ)}
    {r : CityResult} (h : analyze_city cfg model_temps = some r) :
    model_temps ≠ [] ∧
    r.models = model_temps.map (fun p =>
      (p.1, get_bucket ((if cfg.unit == "F" then c_to_f p.2 else p.2) + cfg.bias)
        cfg.unit)) ∧
    r.bucket = (mostCommon (countVotes (model_buckets cfg model_temps))).1 ∧
    r.consensus = (mostCommon (countVotes (model_buckets cfg model_temps))).2 ∧
    r.total = model_temps.length ∧
    r.consensus_prob = (r.consensus : ℚ) / (r.total : ℚ) ∧
    r.market_price = 1/4 ∧
    r.edge = r.consensus_prob - r.market_price ∧
    r.tradeable = (decide (3 ≤ r.consensus) && decide (3 ≤ r.total)) := by
  cases model_temps with
  | nil => simp [analyze_city] at h
  | cons p ps =>
    simp only [analyze_city, List.map_cons, List.isEmpty_cons, Bool.false_eq_true,
      if_false, Option.some.injEq] at h
    subst h
    refine ⟨by simp, rfl, ?_, ?_, by simp, rfl, rfl, rfl, rfl⟩
    · simp only [model_buckets, List.map_cons, List.map_map]
      rfl
    · simp only [model_buckets, List.map_cons, List.map_map]
      rfl

/-- Claim C1: the claim says `get_bucket(v, u)` returns the bucket
`[base, base + step)` with `base = floor(v/step)*step`, so that `v` always
lies inside the bucket, and in particular `get_bucket(-0.5, "C")` renders
`"-1-0°C"`.  On the code this fails: Python `//` already floors, and the
Celsius branch `if temp < 0 and temp != base: base -= 1` then subtracts one
more, so `get_bucket(-0.5, "C")` returns `"-2--1°C"`, a bucket `[-2, -1)`
that does not contain `-0.5`, while `floor(-0.5/1)*1 = -1` — the claimed
(and clearly intended) base. -/
theorem bucket_negative_half_degree_bug :
    get_bucket (-(1/2) : ℚ) "C" = "-2--1°C" ∧
    get_bucket (-(1/2) : ℚ) "C" ≠ "-1-0°C" ∧
    ⌊(-(1/2) : ℚ) / 1⌋ * 1 = -1 ∧
    ¬ ((-2 : ℚ) ≤ -(1/2) ∧ (-(1/2) : ℚ) < -2 + 1) := by
  refine ⟨by decide, by decide, ?_, by decide⟩
  rw [← rat_floor_eq_floor]
  decide

/-- Claim C7: `analyze_city` returns the explicit no-data error result
(modelled as `none`, the `{"error": "no data"}` dict, which carries no bucket
and no confidence) exactly when no model produced a usable value; a nonempty
input never produces the error and the error is never replaced by a default
category. -/
theorem no_data_error_iff (cfg : CityCfg) (model_temps : List (String × ℚ)) :
    analyze_city cfg model_temps = none ↔ model_temps = [] := by
  rcases model_temps with _ | ⟨p, ps⟩ <;> simp [analyze_city]

/-- Claim C2 (counterexample): the claim says the actionable verdict equals
the spec's Decision-Gate conjunction, which includes the edge condition
`|confidence − reference_price| ≥ min_edge`, and that with the count
conditions satisfied the result is not actionable when `min_edge = 0.6`.
On the concrete `[A, A, A, B]` evaluation the code's verdict is `tradeable =
true` while the spec's gate with `min_agreement_count = 3`,
`min_total_sources = 3`, `min_edge = 0.6` evaluates to `false`
(`|3/4 − 1/4| = 1/2 < 0.6`): the code implements no edge condition. -/
theorem decision_gate_min_edge_counterexample :
    (analyze_city cfgC tempsAAAB).map (fun r => r.tradeable) = some true ∧
    (analyze_city cfgC tempsAAAB).map (fun r =>
      decision_gate_spec r.consensus r.total r.consensus_prob
        (some r.market_price) 3 3 (6/10)) = some false := by
  rw [evalAAAB]
  refine ⟨rfl, ?_⟩
  show some (decision_gate_spec 3 4 (3/4) (some (1/4)) 3 3 (6/10)) = some false
  simp [decision_gate_spec]
  rw [abs_of_nonneg (by norm_num : (0:ℚ) ≤ 3/4 - 4⁻¹)]
  norm_num

/-- Claim C2 (amended): the code's Decision Gate is only
`tradeable = (consensus >= 3) and (total >= 3)`; no `min_edge` condition
exists and neither the reference price nor the edge affects the verdict. -/
theorem tradeable_eq_counts_only (cfg : CityCfg) (model_temps : List (String × ℚ))
    (r : CityResult) (h : analyze_city cfg model_temps = some r) :
    r.tradeable = true ↔ (3 ≤ r.consensus ∧ 3 ≤ r.total) := by
  obtain ⟨-, -, -, -, -, -, -, -, ht⟩ := analyze_city_fields h
  rw [ht]
  simp

/-- Witness for Claim C2 (amended) at the `[A, A, A, B]` evaluation. -/
theorem tradeable_eq_counts_only_witness :
    resultAAAB.tradeable = true ↔ (3 ≤ resultAAAB.consensus ∧ 3 ≤ resultAAAB.total) :=
  tradeable_eq_counts_only cfgC tempsAAAB resultAAAB evalAAAB

/-- Claim C3: in the three-classifier ensemble of `run_ensemble`, whenever at
least two models emit the same label that label wins with confidence the
arithmetic mean of exactly the agreeing models' confidences; when the three
labels are pairwise distinct the result is `("HOLD", 0)`. -/
theorem run_ensemble_majority (l1 l2 l3 : String) (c1 c2 c3 : ℚ) :
    ((l1 = l2 ∧ l2 = l3) →
      run_ensemble (l1, c1) (l2, c2) (l3, c3) = (l1, (c1 + c2 + c3) / 3)) ∧
    ((l1 = l2 ∧ l1 ≠ l3) →
      run_ensemble (l1, c1) (l2, c2) (l3, c3) = (l1, (c1 + c2) / 2)) ∧
    ((l1 = l3 ∧ l1 ≠ l2) →
      run_ensemble (l1, c1) (l2, c2) (l3, c3) = (l1, (c1 + c3) / 2)) ∧
    ((l2 = l3 ∧ l1 ≠ l2) →
      run_ensemble (l1, c1) (l2, c2) (l3, c3) = (l2, (c2 + c3) / 2)) ∧
    ((l1 ≠ l2 ∧ l1 ≠ l3 ∧ l2 ≠ l3) →
      run_ensemble (l1, c1) (l2, c2) (l3, c3) = ("HOLD", 0)) := by
  refine ⟨?_, ?_, ?_, ?_, ?_⟩
  · rintro ⟨rfl, rfl⟩
    simp [run_ensemble, countVotes, mostCommon, Prod.ext_iff]
    ring
  · rintro ⟨rfl, h13⟩
    simp [run_ensemble, countVotes, mostCommon, h13, Ne.symm h13, Prod.ext_iff]
  · rintro ⟨h13, h12⟩
    subst h13
    simp [run_ensemble, countVotes, mostCommon, h12, Ne.symm h12, Prod.ext_iff]
  · rintro ⟨h23, h12⟩
    subst h23
    simp [run_ensemble, countVotes, mostCommon, h12, Ne.symm h12, Prod.ext_iff]
  · rintro ⟨h12, h13, h23⟩
    simp [run_ensemble, countVotes, mostCommon, h12, h13, h23,
      Ne.symm h12, Ne.symm h13, Ne.symm h23]

/-- Witness for Claim C3: `[BUY, BUY, SELL]` makes BUY win with the mean of
the two BUY confidences. -/
theorem run_ensemble_majority_witness :
    run_ensemble ("BUY", 9/10) ("BUY", 7/10) ("SELL", 4/5) =
      ("BUY", (9/10 + 7/10) / 2) :=
  (run_ensemble_majority "BUY" "BUY" "SELL" (9/10) (7/10) (4/5)).2.1
    ⟨rfl, by decide⟩

/-- Claim C4: on every successful evaluation, the reported confidence is
`agreement_count / total`, where `agreement_count` is the vote count of the
winning bucket and `total` the number of models that produced a value. -/
theorem consensus_prob_eq_ratio (cfg : CityCfg) (model_temps : List (String × ℚ))
    (r : CityResult) (h : analyze_city cfg model_temps = some r) :
    r.total = model_temps.length ∧
    r.consensus = (model_buckets cfg model_temps).count r.bucket ∧
    r.consensus_prob = (r.consensus : ℚ) / (r.total : ℚ) := by
  obtain ⟨hne, -, hbucket, hcons, htotal, hprob, -, -, -⟩ := analyze_city_fields h
  have hbl : model_buckets cfg model_temps ≠ [] := by
    cases model_temps with
    | nil => exact absurd rfl hne
    | cons p ps => simp [model_buckets]
  obtain ⟨L1, L2, hsplit, -, -, -⟩ := mostCommon_split _ hbl
  set mc := mostCommon (countVotes (model_buckets cfg model_temps)) with hmcdef
  have hmem : mc ∈ countVotes (model_buckets cfg model_temps) := by
    rw [hsplit]
    exact List.mem_append_right _ (List.mem_cons_self _ _)
  refine ⟨htotal, ?_, hprob⟩
  rw [hcons, hbucket]
  exact countVotes_count hmem

/-- Witness for Claim C4: the `[A, A, A, B]` evaluation has
`agreement_count = 3`, `total = 4`, `confidence = 3/4`. -/
theorem consensus_prob_eq_ratio_witness :
    resultAAAB.total = tempsAAAB.length ∧
    resultAAAB.consensus = (model_buckets cfgC tempsAAAB).count resultAAAB.bucket ∧
    resultAAAB.consensus_prob = (resultAAAB.consensus : ℚ) / (resultAAAB.total : ℚ) :=
  consensus_prob_eq_ratio cfgC tempsAAAB resultAAAB evalAAAB

/-- Claim C5 (counterexample): the claim says a non-actionable evaluation
replaces the final emitted category by a neutral/no-action category.  On the
concrete `[A, A, B]` evaluation the verdict is not actionable
(`tradeable = false`), yet the emitted `bucket` field still carries the
plurality winner `"5-6°C"` — a temperature bucket, not a neutral category. -/
theorem skip_keeps_winner_counterexample :
    (analyze_city cfgC tempsAAB).map (fun r => r.tradeable) = some false ∧
    (analyze_city cfgC tempsAAB).map (fun r => r.bucket) = some "5-6°C" ∧
    (mostCommon (countVotes (model_buckets cfgC tempsAAB))).1 = "5-6°C" ∧
    model_buckets cfgC tempsAAB = ["5-6°C", "5-6°C", "6-7°C"] := by
  rw [evalAAB]
  exact ⟨rfl, rfl, by decide, by decide⟩

/-- Claim C5 (amended): when the verdict is not actionable the result still
carries the plurality winner in its `bucket` field, with only
`tradeable = false` (rendered `[SKIP]`) marking it; no neutral category
replaces it. -/
theorem bucket_always_plurality_winner (cfg : CityCfg)
    (model_temps : List (String × ℚ)) (r : CityResult)
    (h : analyze_city cfg model_temps = some r) (hskip : r.tradeable = false) :
    r.bucket = (mostCommon (countVotes (model_buckets cfg model_temps))).1 :=
  (analyze_city_fields h).2.2.1

/-- Witness for Claim C5 (amended) at the non-actionable `[A, A, B]`
evaluation. -/
theorem bucket_always_plurality_winner_witness :
    resultAAB.bucket = (mostCommon (countVotes (model_buckets cfgC tempsAAB))).1 :=
  bucket_always_plurality_winner cfgC tempsAAB resultAAB evalAAB (by decide)

/-- Claim C6: the winning bucket is a bucket of the input, its count is
maximal, and among tied categories the winner is the one whose first
occurrence is earliest in source-iteration order; aggregation is a pure
function of the input sequence, so identical inputs yield identical
results. -/
theorem consensus_tiebreak_first (cfg : CityCfg) (model_temps : List (String × ℚ))
    (r : CityResult) (h : analyze_city cfg model_temps = some r) :
    r.bucket ∈ model_buckets cfg model_temps ∧
    (∀ b ∈ model_buckets cfg model_temps,
      (model_buckets cfg model_temps).count b ≤
        (model_buckets cfg model_temps).count r.bucket) ∧
    (∀ b ∈ model_buckets cfg model_temps, b ≠ r.bucket →
      (model_buckets cfg model_temps).count b =
        (model_buckets cfg model_temps).count r.bucket →
      firstIdx r.bucket (model_buckets cfg model_temps) <
        firstIdx b (model_buckets cfg model_temps)) := by
  obtain ⟨hne, -, hbucket, -, -, -, -, -, -⟩ := analyze_city_fields h
  have hbl : model_buckets cfg model_temps ≠ [] := by
    cases model_temps with
    | nil => exact absurd rfl hne
    | cons p ps => simp [model_buckets]
  obtain ⟨L1, L2, hsplit, hpos, h1, h2⟩ := mostCommon_split _ hbl
  set mc := mostCommon (countVotes (model_buckets cfg model_temps)) with hmcdef
  have hmem : mc ∈ countVotes (model_buckets cfg model_temps) := by
    rw [hsplit]
    exact List.mem_append_right _ (List.mem_cons_self _ _)
  have hkey : mc.1 ∈ model_buckets cfg model_temps := by
    have hmap := List.mem_map_of_mem Prod.fst hmem
    rw [countVotes_keys] at hmap
    exact (mem_firstOccs _ _).1 hmap
  have hc : mc.2 = (model_buckets cfg model_temps).count mc.1 :=
    countVotes_count hmem
  refine ⟨hbucket ▸ hkey, ?_, ?_⟩
  · intro b hb
    have hbmem := mem_countVotes hb
    rw [hsplit] at hbmem
    rw [hbucket, ← hc]
    rcases List.mem_append.1 hbmem with hA | hBC
    · exact le_of_lt (h1 _ hA)
    · rcases List.mem_cons.1 hBC with heq | hC
      · exact le_of_eq (congrArg Prod.snd heq)
      · exact h2 _ hC
  · intro b hb hbne hcnt
    have hbmem := mem_countVotes hb
    rw [hsplit] at hbmem
    rcases List.mem_append.1 hbmem with hA | hBC
    · exfalso
      have hlt := h1 _ hA
      rw [hc, ← hbucket] at hlt
      exact absurd hcnt (Nat.ne_of_lt hlt)
    · rcases List.mem_cons.1 hBC with heq | hC
      · exact absurd (congrArg Prod.fst heq) (hbucket ▸ hbne)
      · have hsplit' : firstOccs (model_buckets cfg model_temps) =
            L1.map Prod.fst ++ mc.1 :: L2.map Prod.fst := by
          rw [← countVotes_keys, hsplit]
          simp
        have hborder := List.mem_map_of_mem Prod.fst hC
        rw [hbucket]
        exact firstOccs_order _ _ _ _ hsplit' b hborder

/-- Witness for Claim C6 at the tied `[A, B, B, A]` evaluation: the winner is
`"5-6°C"`, whose first occurrence precedes that of the equally-counted
`"6-7°C"`. -/
theorem consensus_tiebreak_first_witness :
    resultTie.bucket ∈ model_buckets cfgC tempsTie ∧
    (model_buckets cfgC tempsTie).count "6-7°C" ≤
      (model_buckets cfgC tempsTie).count resultTie.bucket ∧
    firstIdx resultTie.bucket (model_buckets cfgC tempsTie) <
      firstIdx "6-7°C" (model_buckets cfgC tempsTie) := by
  have T := consensus_tiebreak_first cfgC tempsTie resultTie evalTie
  exact ⟨T.1, T.2.1 _ (by decide), T.2.2 _ (by decide) (by decide) (by decide)⟩

/-- Claim C8: whenever a reference price is present (in the code it always
is), the reported edge is the signed difference
`confidence − reference_price`, not an absolute value. -/
theorem edge_signed_difference (cfg : CityCfg) (model_temps : List (String × ℚ))
    (r : CityResult) (h : analyze_city cfg model_temps = some r) :
    r.edge = r.consensus_prob - r.market_price ∧ r.market_price = 1/4 := by
  obtain ⟨-, -, -, -, -, -, hmp, hedge, -⟩ := analyze_city_fields h
  exact ⟨hedge, hmp⟩

/-- Witness for Claim C8 at the `[A, A, A, B]` evaluation:
`edge = 3/4 − 1/4 = 1/2`. -/
theorem edge_signed_difference_witness :
    resultAAAB.edge = resultAAAB.consensus_prob - resultAAAB.market_price ∧
    resultAAAB.market_price = 1/4 :=
  edge_signed_difference cfgC tempsAAAB resultAAAB evalAAAB

/-- Claim C9: the value that is bucketed for each model is exactly the raw
model output, converted with `c_to_f` when the city's unit is Fahrenheit,
plus the city's additive bias constant — applied exactly once, before
bucketing. -/
theorem bias_applied_once (cfg : CityCfg) (model_temps : List (String × ℚ))
    (r : CityResult) (h : analyze_city cfg model_temps = some r) :
    r.models = model_temps.map (fun p =>
      (p.1, get_bucket ((if cfg.unit == "F" then c_to_f p.2 else p.2) + cfg.bias)
        cfg.unit)) :=
  (analyze_city_fields h).2.1

/-- Witness for Claim C9 at a Fahrenheit evaluation: raw 10 °C converts to
50 °F, the +1 bias lands it in `"50-52°F"`. -/
theorem bias_applied_once_witness :
    resultF1.models = tempsF1.map (fun p =>
      (p.1, get_bucket ((if cfgF.unit == "F" then c_to_f p.2 else p.2) + cfgF.bias)
        cfgF.unit)) :=
  bias_applied_once cfgF tempsF1 resultF1 evalF1

/-- Claim C10: every successful evaluation stores the hard-coded reference
price `0.25` (no market data is consulted), the edge is always
`consensus_prob − 0.25`, and the tradeable verdict is a function of
`consensus` and `total` alone — two evaluations with the same counts get the
same verdict regardless of edge or price. -/
theorem market_price_constant (cfg : CityCfg) (model_temps : List (String × ℚ))
    (r : CityResult) (h : analyze_city cfg model_temps = some r) :
    r.market_price = 1/4 ∧ r.edge = r.consensus_prob - 1/4 ∧
    ∀ cfg' model_temps' r', analyze_city cfg' model_temps' = some r' →
      r'.consensus = r.consensus → r'.total = r.total →
      r'.tradeable = r.tradeable := by
  obtain ⟨-, -, -, -, -, -, hmp, hedge, ht⟩ := analyze_city_fields h
  refine ⟨hmp, by rw [hedge, hmp], ?_⟩
  intro cfg' model_temps' r' h' hcons htot
  obtain ⟨-, -, -, -, -, -, -, -, ht'⟩ := analyze_city_fields h'
  rw [ht, ht', hcons, htot]

/-- Witness for Claim C10: the Celsius `[A, A, A, B]` evaluation and the
Fahrenheit 3–1 evaluation share counts 3/4 and hence the same verdict. -/
theorem market_price_constant_witness :
    resultAAAB.market_price = 1/4 ∧
    resultAAAB.edge = resultAAAB.consensus_prob - 1/4 ∧
    resultF4.tradeable = resultAAAB.tradeable := by
  have T := market_price_constant cfgC tempsAAAB resultAAAB evalAAAB
  exact ⟨T.1, T.2.1, T.2.2 cfgF tempsF4 resultF4 evalF4 (by decide) (by decide)⟩

end PolymarketBot
